import Mathlib

/-!
Verification of the `stocks` lagged-transform functions.

The repository exposes four numeric-vector operations (`diffs`, `pdiffs`,
`pchanges`, `ratios`) through generated Rcpp glue in
`src/src/RcppExports.cpp`.  The glue declares the core functions and wraps
them; the core loop bodies themselves are not part of the shipped sources,
so they are modelled here from the specification.

Doubles are modelled by `FP`: exact rational arithmetic on finite values
together with the IEEE-754 special values `inf`, `neginf` and `nan` and
their propagation rules for addition, subtraction, multiplication and
division.  Rounding of finite results is abstracted away (finite values are
exact rationals); the special-value behaviour follows IEEE-754.
-/

namespace Stocks

/-- Model of an IEEE-754 double: an exact rational for finite values, plus
the special values. The negative zero is identified with zero. -/
inductive FP where
  | fin (q : ℚ)
  | inf
  | neginf
  | nan
deriving DecidableEq

/-- IEEE-754 subtraction on the model (exact on finite operands). -/
def FP.sub : FP → FP → FP
  | .fin a, .fin b => .fin (a - b)
  | .fin _, .inf => .neginf
  | .fin _, .neginf => .inf
  | .inf, .fin _ => .inf
  | .inf, .neginf => .inf
  | .neginf, .fin _ => .neginf
  | .neginf, .inf => .neginf
  | .inf, .inf => .nan
  | .neginf, .neginf => .nan
  | _, _ => .nan

/-- IEEE-754 addition on the model (exact on finite operands). -/
def FP.add : FP → FP → FP
  | .fin a, .fin b => .fin (a + b)
  | .fin _, .inf => .inf
  | .fin _, .neginf => .neginf
  | .inf, .fin _ => .inf
  | .neginf, .fin _ => .neginf
  | .inf, .inf => .inf
  | .neginf, .neginf => .neginf
  | .inf, .neginf => .nan
  | .neginf, .inf => .nan
  | _, _ => .nan

/-- IEEE-754 multiplication on the model (exact on finite operands). -/
def FP.mul : FP → FP → FP
  | .fin a, .fin b => .fin (a * b)
  | .fin a, .inf => if 0 < a then .inf else if a < 0 then .neginf else .nan
  | .fin a, .neginf => if 0 < a then .neginf else if a < 0 then .inf else .nan
  | .inf, .fin b => if 0 < b then .inf else if b < 0 then .neginf else .nan
  | .neginf, .fin b => if 0 < b then .neginf else if b < 0 then .inf else .nan
  | .inf, .inf => .inf
  | .inf, .neginf => .neginf
  | .neginf, .inf => .neginf
  | .neginf, .neginf => .inf
  | _, _ => .nan

/-- IEEE-754 division on the model (exact on finite operands): a nonzero
finite value divided by zero gives a signed infinity, `0 / 0` gives `nan`,
a finite value divided by an infinity gives zero, `inf / inf` gives `nan`. -/
def FP.div : FP → FP → FP
  | .fin a, .fin b =>
      if b = 0 then (if 0 < a then .inf else if a < 0 then .neginf else .nan)
      else .fin (a / b)
  | .fin _, .inf => .fin 0
  | .fin _, .neginf => .fin 0
  | .inf, .fin b => if b < 0 then .neginf else .inf
  | .neginf, .fin b => if b < 0 then .inf else .neginf
  | .inf, .inf => .nan
  | .inf, .neginf => .nan
  | .neginf, .inf => .nan
  | .neginf, .neginf => .nan
  | _, _ => .nan

/-- Whether a model value is finite and nonzero. -/
def FP.finNonzero : FP → Bool
  | .fin q => q ≠ 0
  | _ => false

/-- The single error kind of the specification. -/
inductive TransformError where
  | invalidArgument
deriving DecidableEq

deriving instance DecidableEq for Except

/-- Loop body of `diffs`: `y[i] = x[i+lag] - x[i]`. -/
def diffsBody (lag : ℕ) (inp : List FP) (i : ℕ) : FP :=
  FP.sub (inp.getD (i + lag) FP.nan) (inp.getD i FP.nan)

/-- Loop body of `pdiffs`: `y[i] = (x[i+lag] - x[i]) / x[i]`. -/
def pdiffsBody (lag : ℕ) (inp : List FP) (i : ℕ) : FP :=
  FP.div (FP.sub (inp.getD (i + lag) FP.nan) (inp.getD i FP.nan)) (inp.getD i FP.nan)

/-- Loop body of `pchanges`: `y[i] = 100 * (x[i+lag] - x[i]) / x[i]`. -/
def pchangesBody (lag : ℕ) (inp : List FP) (i : ℕ) : FP :=
  FP.mul (FP.fin 100)
    (FP.div (FP.sub (inp.getD (i + lag) FP.nan) (inp.getD i FP.nan)) (inp.getD i FP.nan))

/-- Loop body of `ratios`: `y[i] = x[i+1] / x[i]`. -/
def ratiosBody (inp : List FP) (i : ℕ) : FP :=
  FP.div (inp.getD (i + 1) FP.nan) (inp.getD i FP.nan)

/-- Modelled from the spec: the core function `diffs` is only declared in
`src/src/RcppExports.cpp`, its body is not in the sources.  Per the spec it
returns `y[i] = x[i+lag] - x[i]` for `i` in `[0, n-lag)` and raises
`InvalidArgument` when `lag < 1` or `lag >= n`. -/
def diffs (x : List FP) (lag : ℤ) : Except TransformError (List FP) :=
  if lag < 1 ∨ (x.length : ℤ) ≤ lag then .error .invalidArgument
  else .ok ((List.range (x.length - lag.toNat)).map (diffsBody lag.toNat x))

/-- Modelled from the spec: body of `pdiffs` (declared only, not in the
sources); `y[i] = (x[i+lag] - x[i]) / x[i]`, same validity guard as
`diffs`, division by zero follows IEEE-754. -/
def pdiffs (x : List FP) (lag : ℤ) : Except TransformError (List FP) :=
  if lag < 1 ∨ (x.length : ℤ) ≤ lag then .error .invalidArgument
  else .ok ((List.range (x.length - lag.toNat)).map (pdiffsBody lag.toNat x))

/-- Modelled from the spec: body of `pchanges` (declared only, not in the
sources); `y[i] = 100 * (x[i+lag] - x[i]) / x[i]`, same validity guard as
`diffs`. -/
def pchanges (x : List FP) (lag : ℤ) : Except TransformError (List FP) :=
  if lag < 1 ∨ (x.length : ℤ) ≤ lag then .error .invalidArgument
  else .ok ((List.range (x.length - lag.toNat)).map (pchangesBody lag.toNat x))

/-- Modelled from the spec: body of `ratios` (declared only, not in the
sources); it takes no lag argument, the lag is fixed at 1:
`y[i] = x[i+1] / x[i]` for `i` in `[0, n-1)`, `InvalidArgument` when
`n <= 1`. -/
def ratios (x : List FP) : Except TransformError (List FP) :=
  if (x.length : ℤ) ≤ 1 then .error .invalidArgument
  else .ok ((List.range (x.length - 1)).map (ratiosBody x))

/-- State of the single linear pass: the input vector and the output
written so far.  The loop body only ever writes `out`. -/
structure LoopState where
  input : List FP
  out : List FP
deriving DecidableEq

/-- One iteration of the pass: read the needed elements from the current
state's input and append one computed element to the output. -/
def loopStep (f : List FP → ℕ → FP) (s : LoopState) (i : ℕ) : LoopState :=
  { s with out := s.out ++ [f s.input i] }

/-- Modelled from the spec: each operation completes in one linear pass over
the input, writing only the freshly allocated output.  `loopRun f x m` runs
the pass with per-element body `f` for `m` iterations starting from input
`x` and an empty output. -/
def loopRun (f : List FP → ℕ → FP) (x : List FP) (m : ℕ) : LoopState :=
  (List.range m).foldl (loopStep f) ⟨x, []⟩

/-- One call to one of the four exported operations, with its arguments. -/
inductive Op where
  | diffsOp (x : List FP) (lag : ℤ)
  | pchangesOp (x : List FP) (lag : ℤ)
  | pdiffsOp (x : List FP) (lag : ℤ)
  | ratiosOp (x : List FP)
deriving DecidableEq

/-- Semantics of a single call: a function of the call's arguments only. -/
def runCall : Op → Except TransformError (List FP)
  | .diffsOp x lag => diffs x lag
  | .pchangesOp x lag => pchanges x lag
  | .pdiffsOp x lag => pdiffs x lag
  | .ratiosOp x => ratios x

/-- Semantics of a history of calls: each call is independent and
stateless, so the history maps to the list of individual results. -/
def runCalls (cs : List Op) : List (Except TransformError (List FP)) :=
  cs.map runCall

/-- Modelled from the spec: the conversion applied by
`Rcpp::traits::input_parameter< int >` in the wrappers of
`src/src/RcppExports.cpp` (the Rcpp implementation is not part of the
sources): an arbitrary integer is reduced to a C `int` (32-bit signed)
by two's-complement wrap. -/
def asCInt (v : ℤ) : ℤ :=
  (v + 2 ^ 31) % 2 ^ 32 - 2 ^ 31

/-- What a wrapper hands back to the host runtime: either the wrapped
result vector or a host-runtime error. -/
inductive HostResult where
  | value (y : List FP)
  | hostError (e : TransformError)
deriving DecidableEq

/-- Modelled from the spec: the BEGIN_RCPP/END_RCPP pair around each
wrapper body catches any error raised by the core computation at the
boundary and reports it to the host runtime instead of letting a C++
exception propagate; a normal result is wrapped unchanged. -/
def hostWrap (r : Except TransformError (List FP)) : HostResult :=
  match r with
  | .ok y => .value y
  | .error e => .hostError e

/-- The exported wrapper `_stocks_diffs`: coerce `lag` to a C `int`, invoke
the core `diffs` once, wrap the result (`src/src/RcppExports.cpp` lines
10-19). -/
def stocks_diffs (x : List FP) (lag : ℤ) : HostResult :=
  hostWrap (diffs x (asCInt lag))

/-- The exported wrapper `_stocks_pchanges` (`src/src/RcppExports.cpp`
lines 21-31). -/
def stocks_pchanges (x : List FP) (lag : ℤ) : HostResult :=
  hostWrap (pchanges x (asCInt lag))

/-- The exported wrapper `_stocks_pdiffs` (`src/src/RcppExports.cpp` lines
33-43). -/
def stocks_pdiffs (x : List FP) (lag : ℤ) : HostResult :=
  hostWrap (pdiffs x (asCInt lag))

/-- The exported wrapper `_stocks_ratios`: it takes a single argument
(`src/src/RcppExports.cpp` lines 45-54, arity 1 in `CallEntries`). -/
def stocks_ratios (x : List FP) : HostResult :=
  hostWrap (ratios x)

/-! ## Helper lemmas -/

/-- The element of a mapped range at an in-range position. -/
theorem getD_range_map (g : ℕ → FP) (m i : ℕ) (d : FP) (h : i < m) :
    ((List.range m).map g).getD i d = g i := by
  rw [List.getD_eq_getElem _ _ (by simpa using h)]
  simp

/-- The loop pass never changes the input component of the state. -/
theorem foldl_loopStep_input (f : List FP → ℕ → FP) :
    ∀ (l : List ℕ) (s : LoopState), (l.foldl (loopStep f) s).input = s.input := by
  intro l
  induction l with
  | nil => intro s; rfl
  | cons a l ih => intro s; rw [List.foldl_cons]; exact ih _

/-- The loop pass appends exactly the mapped elements to the output. -/
theorem foldl_loopStep_out (f : List FP → ℕ → FP) :
    ∀ (l : List ℕ) (s : LoopState),
      (l.foldl (loopStep f) s).out = s.out ++ l.map (f s.input) := by
  intro l
  induction l with
  | nil => intro s; simp
  | cons a l ih =>
      intro s
      rw [List.foldl_cons, ih]
      simp [loopStep]

/-- The function `loopRun` keeps the input intact. -/
theorem loopRun_input (f : List FP → ℕ → FP) (x : List FP) (m : ℕ) :
    (loopRun f x m).input = x :=
  foldl_loopStep_input f _ _

/-- The function `loopRun` produces exactly the mapped range as output. -/
theorem loopRun_out (f : List FP → ℕ → FP) (x : List FP) (m : ℕ) :
    (loopRun f x m).out = (List.range m).map (f x) := by
  rw [loopRun, foldl_loopStep_out]
  simp

/-- The element at the junction position of an appended list. -/
theorem getD_append_cons {α : Type} (l l2 : List α) (b d : α) :
    (l ++ b :: l2).getD l.length d = b := by
  induction l with
  | nil => rfl
  | cons a l ih => simpa using ih

/-- A value satisfying `finNonzero` is a nonzero finite rational. -/
theorem finNonzero_iff (a : FP) :
    a.finNonzero = true ↔ ∃ q : ℚ, q ≠ 0 ∧ a = FP.fin q := by
  cases a <;> simp [FP.finNonzero]

/-! ## Claim theorems -/

/-- Claim C1: for every sequence `x` of length `n` and every lag with
`1 ≤ lag < n`, `diffs x lag` returns a sequence of length exactly
`n - lag` whose `i`-th element equals `x[i+lag] - x[i]` for every
`i` in `[0, n-lag)`. -/
theorem diffs_functional_correctness (x : List FP) (lag : ℤ)
    (h1 : 1 ≤ lag) (h2 : lag < (x.length : ℤ)) :
    ∃ y, diffs x lag = .ok y ∧ y.length = x.length - lag.toNat ∧
      ∀ i, i < x.length - lag.toNat →
        y.getD i FP.nan = FP.sub (x.getD (i + lag.toNat) FP.nan) (x.getD i FP.nan) := by
  refine ⟨(List.range (x.length - lag.toNat)).map (diffsBody lag.toNat x), ?_, ?_, ?_⟩
  · unfold diffs
    rw [if_neg (by omega)]
  · simp
  · intro i hi
    rw [getD_range_map _ _ _ _ hi]
    rfl

/-- Claim C1 witness: the spec scenario `x = [1, 2, 4, 8]`, `lag = 1`. -/
theorem diffs_functional_correctness_witness :
    ((1:ℤ) ≤ 1 ∧ (1:ℤ) < (([FP.fin 1, FP.fin 2, FP.fin 4, FP.fin 8] : List FP).length : ℤ))
    ∧ ∃ y, diffs [FP.fin 1, FP.fin 2, FP.fin 4, FP.fin 8] 1 = .ok y ∧
        y.length = ([FP.fin 1, FP.fin 2, FP.fin 4, FP.fin 8] : List FP).length - (1:ℤ).toNat ∧
        ∀ i, i < ([FP.fin 1, FP.fin 2, FP.fin 4, FP.fin 8] : List FP).length - (1:ℤ).toNat →
          y.getD i FP.nan =
            FP.sub (([FP.fin 1, FP.fin 2, FP.fin 4, FP.fin 8] : List FP).getD (i + (1:ℤ).toNat) FP.nan)
              (([FP.fin 1, FP.fin 2, FP.fin 4, FP.fin 8] : List FP).getD i FP.nan) :=
  ⟨⟨by decide, by decide⟩, diffs_functional_correctness _ 1 (by decide) (by decide)⟩

/-- Claim C2: each of `diffs`, `pdiffs` and `pchanges` fails with
`InvalidArgument` precisely when `lag < 1` or `lag ≥ length x` (so in
particular on empty input with any positive lag), and otherwise returns a
fully computed sequence of length `n - lag`: no partial output is ever
produced. -/
theorem lag_validation_error (x : List FP) (lag : ℤ) :
    ((diffs x lag = .error .invalidArgument) ↔ (lag < 1 ∨ (x.length : ℤ) ≤ lag))
    ∧ ((pdiffs x lag = .error .invalidArgument) ↔ (lag < 1 ∨ (x.length : ℤ) ≤ lag))
    ∧ ((pchanges x lag = .error .invalidArgument) ↔ (lag < 1 ∨ (x.length : ℤ) ≤ lag))
    ∧ (∀ y, diffs x lag = .ok y → y.length = x.length - lag.toNat)
    ∧ (∀ y, pdiffs x lag = .ok y → y.length = x.length - lag.toNat)
    ∧ (∀ y, pchanges x lag = .ok y → y.length = x.length - lag.toNat) := by
  by_cases hc : lag < 1 ∨ (x.length : ℤ) ≤ lag
  · simp [diffs, pdiffs, pchanges, hc]
  · simp [diffs, pdiffs, pchanges, hc]

/-- Claim C3: `ratios` takes only the sequence (its type here has a single
argument, matching arity 1 in `CallEntries`) and uses a fixed lag of 1:
for every `x` of length at least 2 it returns a sequence of length `n - 1`
whose `i`-th element is `x[i+1] / x[i]`. -/
theorem ratios_functional_correctness (x : List FP) (h : 2 ≤ x.length) :
    ∃ y, ratios x = .ok y ∧ y.length = x.length - 1 ∧
      ∀ i, i < x.length - 1 →
        y.getD i FP.nan = FP.div (x.getD (i + 1) FP.nan) (x.getD i FP.nan) := by
  refine ⟨(List.range (x.length - 1)).map (ratiosBody x), ?_, ?_, ?_⟩
  · unfold ratios
    rw [if_neg (by omega)]
  · simp
  · intro i hi
    rw [getD_range_map _ _ _ _ hi]
    rfl

/-- Claim C3 witness: the spec scenario `x = [1, 2, 4, 8]`. -/
theorem ratios_functional_correctness_witness :
    2 ≤ ([FP.fin 1, FP.fin 2, FP.fin 4, FP.fin 8] : List FP).length
    ∧ (∃ y, ratios [FP.fin 1, FP.fin 2, FP.fin 4, FP.fin 8] = .ok y ∧
        y.length = ([FP.fin 1, FP.fin 2, FP.fin 4, FP.fin 8] : List FP).length - 1 ∧
        ∀ i, i < ([FP.fin 1, FP.fin 2, FP.fin 4, FP.fin 8] : List FP).length - 1 →
          y.getD i FP.nan =
            FP.div (([FP.fin 1, FP.fin 2, FP.fin 4, FP.fin 8] : List FP).getD (i + 1) FP.nan)
              (([FP.fin 1, FP.fin 2, FP.fin 4, FP.fin 8] : List FP).getD i FP.nan))
    ∧ ratios [FP.fin 1, FP.fin 2, FP.fin 4, FP.fin 8] = .ok [FP.fin 2, FP.fin 2, FP.fin 2] :=
  ⟨by decide, ratios_functional_correctness _ (by decide), by with_unfolding_all decide⟩

/-- Claim C4: for a valid lag, `pdiffs x lag` returns the sequence whose `i`-th
element is `(x[i+lag] - x[i]) / x[i]` under the IEEE-754 model: a zero
divisor yields an infinity or `nan` in the output rather than an error,
and `nan`/`inf` inputs propagate through `FP.sub`/`FP.div` with no
special-casing. -/
theorem pdiffs_functional_correctness (x : List FP) (lag : ℤ)
    (h1 : 1 ≤ lag) (h2 : lag < (x.length : ℤ)) :
    ∃ y, pdiffs x lag = .ok y ∧ y.length = x.length - lag.toNat ∧
      ∀ i, i < x.length - lag.toNat →
        y.getD i FP.nan =
          FP.div (FP.sub (x.getD (i + lag.toNat) FP.nan) (x.getD i FP.nan))
            (x.getD i FP.nan) := by
  refine ⟨(List.range (x.length - lag.toNat)).map (pdiffsBody lag.toNat x), ?_, ?_, ?_⟩
  · unfold pdiffs
    rw [if_neg (by omega)]
  · simp
  · intro i hi
    rw [getD_range_map _ _ _ _ hi]
    rfl

/-- Claim C4 witness: the spec scenario `x = [5, 0, 5]`, `lag = 1`, with the
concrete output `[-1, Inf]` showing division by zero produces an infinity
and not an error. -/
theorem pdiffs_functional_correctness_witness :
    ((1:ℤ) ≤ 1 ∧ (1:ℤ) < (([FP.fin 5, FP.fin 0, FP.fin 5] : List FP).length : ℤ))
    ∧ (∃ y, pdiffs [FP.fin 5, FP.fin 0, FP.fin 5] 1 = .ok y ∧
        y.length = ([FP.fin 5, FP.fin 0, FP.fin 5] : List FP).length - (1:ℤ).toNat ∧
        ∀ i, i < ([FP.fin 5, FP.fin 0, FP.fin 5] : List FP).length - (1:ℤ).toNat →
          y.getD i FP.nan =
            FP.div (FP.sub (([FP.fin 5, FP.fin 0, FP.fin 5] : List FP).getD (i + (1:ℤ).toNat) FP.nan)
                (([FP.fin 5, FP.fin 0, FP.fin 5] : List FP).getD i FP.nan))
              (([FP.fin 5, FP.fin 0, FP.fin 5] : List FP).getD i FP.nan))
    ∧ pdiffs [FP.fin 5, FP.fin 0, FP.fin 5] 1 = .ok [FP.fin (-1), FP.inf] :=
  ⟨⟨by decide, by decide⟩, pdiffs_functional_correctness _ 1 (by decide) (by decide),
    by with_unfolding_all decide⟩

/-- Claim C5: whenever `pdiffs` and `pchanges` both succeed on the same input,
every element of `pchanges` is `100 *` the corresponding element of
`pdiffs`. -/
theorem pchanges_scales_pdiffs (x : List FP) (lag : ℤ) (p c : List FP)
    (hp : pdiffs x lag = .ok p) (hc : pchanges x lag = .ok c) :
    ∀ i, i < c.length → c.getD i FP.nan = FP.mul (FP.fin 100) (p.getD i FP.nan) := by
  unfold pdiffs at hp
  unfold pchanges at hc
  by_cases hcnd : lag < 1 ∨ (x.length : ℤ) ≤ lag
  · rw [if_pos hcnd] at hp
    exact absurd hp (by simp)
  · rw [if_neg hcnd] at hp
    rw [if_neg hcnd] at hc
    injection hp with hp
    injection hc with hc
    subst hp
    subst hc
    intro i hi
    simp only [List.length_map, List.length_range] at hi
    rw [getD_range_map _ _ _ _ hi, getD_range_map _ _ _ _ hi]
    rfl

/-- Claim C5 witness: `x = [1, 2, 4, 8]`, `lag = 1`, where
`pdiffs = [1, 1, 1]` and `pchanges = [100, 100, 100]`. -/
theorem pchanges_scales_pdiffs_witness :
    pdiffs [FP.fin 1, FP.fin 2, FP.fin 4, FP.fin 8] 1 = .ok [FP.fin 1, FP.fin 1, FP.fin 1]
    ∧ pchanges [FP.fin 1, FP.fin 2, FP.fin 4, FP.fin 8] 1 = .ok [FP.fin 100, FP.fin 100, FP.fin 100]
    ∧ ∀ i, i < ([FP.fin 100, FP.fin 100, FP.fin 100] : List FP).length →
        ([FP.fin 100, FP.fin 100, FP.fin 100] : List FP).getD i FP.nan =
          FP.mul (FP.fin 100) (([FP.fin 1, FP.fin 1, FP.fin 1] : List FP).getD i FP.nan) :=
  ⟨by with_unfolding_all decide, by with_unfolding_all decide,
    pchanges_scales_pdiffs [FP.fin 1, FP.fin 2, FP.fin 4, FP.fin 8] 1
      [FP.fin 1, FP.fin 1, FP.fin 1] [FP.fin 100, FP.fin 100, FP.fin 100]
      (by with_unfolding_all decide) (by with_unfolding_all decide)⟩

/-- Claim C6 counterexample: `x = [Inf, 1]` contains no zeros, yet
`ratios x = [0]` (because `1 / Inf = 0`) while
`pdiffs x 1 + 1 = [nan + 1] = [nan]` (because `(1 - Inf) / Inf = nan`),
so the claimed elementwise identity fails. -/
theorem ratios_pdiffs_relation_counterexample :
    (∀ a ∈ ([FP.inf, FP.fin 1] : List FP), a ≠ FP.fin 0)
    ∧ 2 ≤ ([FP.inf, FP.fin 1] : List FP).length
    ∧ ratios [FP.inf, FP.fin 1] = .ok [FP.fin 0]
    ∧ pdiffs [FP.inf, FP.fin 1] 1 = .ok [FP.nan]
    ∧ FP.add FP.nan (FP.fin 1) = FP.nan
    ∧ FP.fin 0 ≠ FP.nan := by
  with_unfolding_all decide

/-- Claim C6 amended: for every sequence whose elements are all finite and
nonzero, whenever `pdiffs x 1` and `ratios x` both succeed,
`ratios x` equals `pdiffs x 1` with 1 added to every element. -/
theorem ratios_eq_pdiffs_add_one (x p r : List FP)
    (hfin : ∀ a ∈ x, a.finNonzero = true)
    (hp : pdiffs x 1 = .ok p) (hr : ratios x = .ok r) :
    ∀ i, i < r.length → r.getD i FP.nan = FP.add (p.getD i FP.nan) (FP.fin 1) := by
  unfold pdiffs at hp
  unfold ratios at hr
  by_cases hcnd : (x.length : ℤ) ≤ 1
  · rw [if_pos hcnd] at hr
    exact absurd hr (by simp)
  · rw [if_neg hcnd] at hr
    rw [if_neg (by omega : ¬((1:ℤ) < 1 ∨ (x.length : ℤ) ≤ 1))] at hp
    injection hp with hp
    injection hr with hr
    subst hp
    subst hr
    intro i hi
    simp only [List.length_map, List.length_range] at hi
    simp only [Int.toNat_one] at *
    rw [getD_range_map _ _ _ _ hi, getD_range_map _ _ _ _ hi]
    unfold ratiosBody pdiffsBody
    have hi1 : i < x.length := by omega
    have hi2 : i + 1 < x.length := by omega
    rw [List.getD_eq_getElem _ _ hi2, List.getD_eq_getElem _ _ hi1]
    obtain ⟨qa, ha0, ha⟩ := (finNonzero_iff _).mp (hfin _ (List.getElem_mem hi1))
    obtain ⟨qb, hb0, hb⟩ := (finNonzero_iff _).mp (hfin _ (List.getElem_mem hi2))
    rw [ha, hb]
    simp only [FP.sub, FP.div, FP.add, if_neg ha0]
    congr 1
    field_simp

/-- Claim C6 amended witness: `x = [1, 2, 4, 8]`, where `pdiffs x 1 = [1, 1, 1]`
and `ratios x = [2, 2, 2]`. -/
theorem ratios_eq_pdiffs_add_one_witness :
    (∀ a ∈ ([FP.fin 1, FP.fin 2, FP.fin 4, FP.fin 8] : List FP), a.finNonzero = true)
    ∧ pdiffs [FP.fin 1, FP.fin 2, FP.fin 4, FP.fin 8] 1 = .ok [FP.fin 1, FP.fin 1, FP.fin 1]
    ∧ ratios [FP.fin 1, FP.fin 2, FP.fin 4, FP.fin 8] = .ok [FP.fin 2, FP.fin 2, FP.fin 2]
    ∧ ∀ i, i < ([FP.fin 2, FP.fin 2, FP.fin 2] : List FP).length →
        ([FP.fin 2, FP.fin 2, FP.fin 2] : List FP).getD i FP.nan =
          FP.add (([FP.fin 1, FP.fin 1, FP.fin 1] : List FP).getD i FP.nan) (FP.fin 1) :=
  ⟨by decide, by with_unfolding_all decide, by with_unfolding_all decide,
    ratios_eq_pdiffs_add_one [FP.fin 1, FP.fin 2, FP.fin 4, FP.fin 8]
      [FP.fin 1, FP.fin 1, FP.fin 1] [FP.fin 2, FP.fin 2, FP.fin 2]
      (by decide) (by with_unfolding_all decide) (by with_unfolding_all decide)⟩

/-- Claim C7: each operation is a single pass whose loop body only appends to
the freshly allocated output: the input component of the loop state is
unchanged at the end of the pass, and the pass computes exactly the
operation's result. -/
theorem no_input_mutation (x : List FP) (lag : ℤ)
    (h1 : 1 ≤ lag) (h2 : lag < (x.length : ℤ)) :
    ((loopRun (diffsBody lag.toNat) x (x.length - lag.toNat)).input = x
      ∧ diffs x lag = .ok (loopRun (diffsBody lag.toNat) x (x.length - lag.toNat)).out)
    ∧ ((loopRun (pdiffsBody lag.toNat) x (x.length - lag.toNat)).input = x
      ∧ pdiffs x lag = .ok (loopRun (pdiffsBody lag.toNat) x (x.length - lag.toNat)).out)
    ∧ ((loopRun (pchangesBody lag.toNat) x (x.length - lag.toNat)).input = x
      ∧ pchanges x lag = .ok (loopRun (pchangesBody lag.toNat) x (x.length - lag.toNat)).out)
    ∧ ((loopRun ratiosBody x (x.length - 1)).input = x
      ∧ ratios x = .ok (loopRun ratiosBody x (x.length - 1)).out) := by
  refine ⟨⟨loopRun_input _ _ _, ?_⟩, ⟨loopRun_input _ _ _, ?_⟩,
    ⟨loopRun_input _ _ _, ?_⟩, ⟨loopRun_input _ _ _, ?_⟩⟩ <;> rw [loopRun_out]
  · unfold diffs
    rw [if_neg (by omega)]
  · unfold pdiffs
    rw [if_neg (by omega)]
  · unfold pchanges
    rw [if_neg (by omega)]
  · unfold ratios
    rw [if_neg (by omega)]

/-- Claim C7 witness: the pass at `x = [1, 2, 4, 8]`, `lag = 1`. -/
theorem no_input_mutation_witness :
    ((1:ℤ) ≤ 1 ∧ (1:ℤ) < (([FP.fin 1, FP.fin 2, FP.fin 4, FP.fin 8] : List FP).length : ℤ))
    ∧ (((loopRun (diffsBody (1:ℤ).toNat) [FP.fin 1, FP.fin 2, FP.fin 4, FP.fin 8]
          (([FP.fin 1, FP.fin 2, FP.fin 4, FP.fin 8] : List FP).length - (1:ℤ).toNat)).input
            = [FP.fin 1, FP.fin 2, FP.fin 4, FP.fin 8]
        ∧ diffs [FP.fin 1, FP.fin 2, FP.fin 4, FP.fin 8] 1 =
            .ok (loopRun (diffsBody (1:ℤ).toNat) [FP.fin 1, FP.fin 2, FP.fin 4, FP.fin 8]
              (([FP.fin 1, FP.fin 2, FP.fin 4, FP.fin 8] : List FP).length - (1:ℤ).toNat)).out)
      ∧ (((loopRun (pdiffsBody (1:ℤ).toNat) [FP.fin 1, FP.fin 2, FP.fin 4, FP.fin 8]
          (([FP.fin 1, FP.fin 2, FP.fin 4, FP.fin 8] : List FP).length - (1:ℤ).toNat)).input
            = [FP.fin 1, FP.fin 2, FP.fin 4, FP.fin 8]
        ∧ pdiffs [FP.fin 1, FP.fin 2, FP.fin 4, FP.fin 8] 1 =
            .ok (loopRun (pdiffsBody (1:ℤ).toNat) [FP.fin 1, FP.fin 2, FP.fin 4, FP.fin 8]
              (([FP.fin 1, FP.fin 2, FP.fin 4, FP.fin 8] : List FP).length - (1:ℤ).toNat)).out))
      ∧ (((loopRun (pchangesBody (1:ℤ).toNat) [FP.fin 1, FP.fin 2, FP.fin 4, FP.fin 8]
          (([FP.fin 1, FP.fin 2, FP.fin 4, FP.fin 8] : List FP).length - (1:ℤ).toNat)).input
            = [FP.fin 1, FP.fin 2, FP.fin 4, FP.fin 8]
        ∧ pchanges [FP.fin 1, FP.fin 2, FP.fin 4, FP.fin 8] 1 =
            .ok (loopRun (pchangesBody (1:ℤ).toNat) [FP.fin 1, FP.fin 2, FP.fin 4, FP.fin 8]
              (([FP.fin 1, FP.fin 2, FP.fin 4, FP.fin 8] : List FP).length - (1:ℤ).toNat)).out))
      ∧ ((loopRun ratiosBody [FP.fin 1, FP.fin 2, FP.fin 4, FP.fin 8]
          (([FP.fin 1, FP.fin 2, FP.fin 4, FP.fin 8] : List FP).length - 1)).input
            = [FP.fin 1, FP.fin 2, FP.fin 4, FP.fin 8]
        ∧ ratios [FP.fin 1, FP.fin 2, FP.fin 4, FP.fin 8] =
            .ok (loopRun ratiosBody [FP.fin 1, FP.fin 2, FP.fin 4, FP.fin 8]
              (([FP.fin 1, FP.fin 2, FP.fin 4, FP.fin 8] : List FP).length - 1)).out)) :=
  ⟨⟨by decide, by decide⟩,
    no_input_mutation [FP.fin 1, FP.fin 2, FP.fin 4, FP.fin 8] 1 (by decide) (by decide)⟩

/-- Claim C8: a history of calls maps to the list of per-call results: the
result of a call is `runCall` of its own arguments alone, whatever calls
come before or after it in the history, so equal inputs always produce
equal outputs and no hidden state exists across calls. -/
theorem calls_stateless_deterministic (pre post : List Op) (c : Op) :
    runCalls (pre ++ c :: post) = runCalls pre ++ runCall c :: runCalls post
    ∧ (runCalls (pre ++ c :: post)).getD pre.length (.error .invalidArgument) = runCall c := by
  have hd : runCalls (pre ++ c :: post) = runCalls pre ++ runCall c :: runCalls post := by
    simp [runCalls]
  refine ⟨hd, ?_⟩
  rw [hd]
  have hl : (runCalls pre).length = pre.length := by simp [runCalls]
  rw [← hl]
  exact getD_append_cons _ _ _ _

/-- Claim C9: at each lag-taking entry point the lag is first coerced to a
C `int` by `asCInt`, whose result always lies in the 32-bit signed range,
and the core is invoked with that coerced value, so the core never
observes a lag outside the 32-bit signed integer range. -/
theorem lag_coerced_to_cint (x : List FP) (lag : ℤ) :
    (-(2 ^ 31) ≤ asCInt lag ∧ asCInt lag < 2 ^ 31)
    ∧ stocks_diffs x lag = hostWrap (diffs x (asCInt lag))
    ∧ stocks_pchanges x lag = hostWrap (pchanges x (asCInt lag))
    ∧ stocks_pdiffs x lag = hostWrap (pdiffs x (asCInt lag)) := by
  refine ⟨⟨?_, ?_⟩, rfl, rfl, rfl⟩ <;>
    · unfold asCInt
      omega

/-- Claim C10: every exported wrapper is exactly the host wrapping of a single
core invocation: a successful core result is returned as a host value
unchanged, and a core error becomes a host-runtime error rather than a
propagating exception. -/
theorem wrappers_delegate_once (x : List FP) (lag : ℤ) :
    stocks_diffs x lag = hostWrap (diffs x (asCInt lag))
    ∧ stocks_pchanges x lag = hostWrap (pchanges x (asCInt lag))
    ∧ stocks_pdiffs x lag = hostWrap (pdiffs x (asCInt lag))
    ∧ stocks_ratios x = hostWrap (ratios x)
    ∧ (∀ y, hostWrap (.ok y) = .value y)
    ∧ (∀ e, hostWrap (.error e) = .hostError e) :=
  ⟨rfl, rfl, rfl, rfl, fun _ => rfl, fun _ => rfl⟩

/-- Claim C2 witness: the statement at the empty input with `lag = 1`. -/
theorem lag_validation_error_witness :
    ((diffs ([] : List FP) 1 = .error .invalidArgument) ↔
      ((1:ℤ) < 1 ∨ ((([] : List FP)).length : ℤ) ≤ 1))
    ∧ ((pdiffs ([] : List FP) 1 = .error .invalidArgument) ↔
      ((1:ℤ) < 1 ∨ ((([] : List FP)).length : ℤ) ≤ 1))
    ∧ ((pchanges ([] : List FP) 1 = .error .invalidArgument) ↔
      ((1:ℤ) < 1 ∨ ((([] : List FP)).length : ℤ) ≤ 1))
    ∧ (∀ y, diffs ([] : List FP) 1 = .ok y → y.length = ([] : List FP).length - (1:ℤ).toNat)
    ∧ (∀ y, pdiffs ([] : List FP) 1 = .ok y → y.length = ([] : List FP).length - (1:ℤ).toNat)
    ∧ (∀ y, pchanges ([] : List FP) 1 = .ok y → y.length = ([] : List FP).length - (1:ℤ).toNat) :=
  lag_validation_error [] 1

/-- Claim C8 witness: one concrete call surrounded by other calls. -/
theorem calls_stateless_deterministic_witness :
    runCalls ([Op.diffsOp [FP.fin 1, FP.fin 2] 1] ++ Op.ratiosOp [FP.fin 1, FP.fin 2] ::
        [Op.pdiffsOp [FP.fin 1, FP.fin 2] 1]) =
      runCalls [Op.diffsOp [FP.fin 1, FP.fin 2] 1] ++ runCall (Op.ratiosOp [FP.fin 1, FP.fin 2]) ::
        runCalls [Op.pdiffsOp [FP.fin 1, FP.fin 2] 1]
    ∧ (runCalls ([Op.diffsOp [FP.fin 1, FP.fin 2] 1] ++ Op.ratiosOp [FP.fin 1, FP.fin 2] ::
        [Op.pdiffsOp [FP.fin 1, FP.fin 2] 1])).getD
          ([Op.diffsOp [FP.fin 1, FP.fin 2] 1] : List Op).length (.error .invalidArgument) =
      runCall (Op.ratiosOp [FP.fin 1, FP.fin 2]) :=
  calls_stateless_deterministic [Op.diffsOp [FP.fin 1, FP.fin 2] 1]
    [Op.pdiffsOp [FP.fin 1, FP.fin 2] 1] (Op.ratiosOp [FP.fin 1, FP.fin 2])

/-- Claim C9 witness: a lag far outside the 32-bit range, `2 ^ 40`. -/
theorem lag_coerced_to_cint_witness :
    ((-(2 ^ 31) ≤ asCInt (2 ^ 40) ∧ asCInt (2 ^ 40) < 2 ^ 31)
    ∧ stocks_diffs [FP.fin 1, FP.fin 2] (2 ^ 40) =
        hostWrap (diffs [FP.fin 1, FP.fin 2] (asCInt (2 ^ 40)))
    ∧ stocks_pchanges [FP.fin 1, FP.fin 2] (2 ^ 40) =
        hostWrap (pchanges [FP.fin 1, FP.fin 2] (asCInt (2 ^ 40)))
    ∧ stocks_pdiffs [FP.fin 1, FP.fin 2] (2 ^ 40) =
        hostWrap (pdiffs [FP.fin 1, FP.fin 2] (asCInt (2 ^ 40)))) :=
  lag_coerced_to_cint [FP.fin 1, FP.fin 2] (2 ^ 40)

/-- Claim C10 witness: the wrappers at `x = [1, 2]`, `lag = 1`. -/
theorem wrappers_delegate_once_witness :
    stocks_diffs [FP.fin 1, FP.fin 2] 1 = hostWrap (diffs [FP.fin 1, FP.fin 2] (asCInt 1))
    ∧ stocks_pchanges [FP.fin 1, FP.fin 2] 1 = hostWrap (pchanges [FP.fin 1, FP.fin 2] (asCInt 1))
    ∧ stocks_pdiffs [FP.fin 1, FP.fin 2] 1 = hostWrap (pdiffs [FP.fin 1, FP.fin 2] (asCInt 1))
    ∧ stocks_ratios [FP.fin 1, FP.fin 2] = hostWrap (ratios [FP.fin 1, FP.fin 2])
    ∧ (∀ y, hostWrap (.ok y) = .value y)
    ∧ (∀ e, hostWrap (.error e) = .hostError e) :=
  wrappers_delegate_once [FP.fin 1, FP.fin 2] 1

end Stocks
